import Mathlib

/-!
Verification of the `mongoose-query-toolkit` query-translation layer
(`src/index.ts`, class `QueryToolkit`).

Shallow embedding conventions:
* JS strings are Lean `String`s; the JS string methods used by the source
  (`split`, `startsWith('-')`, `substring(1)`, `trim`, `join`, `replace(/,/g,' ')`)
  are re-implemented structurally over the character list `String.data`, so that
  they compute by kernel reduction.
* JS objects with string keys are association lists in insertion order;
  property assignment `obj[k] = v` is `objInsert` (overwrite in place, else
  append at the end), matching JS object key-ordering semantics.
* Option values are modelled well-typed (`q`/`sort`/`select`/`populate` as
  strings, `page`/`limit` as naturals), as declared by the `QueryOptions`
  TypeScript interface; `undefined` is modelled as key absence.
* The asynchronous Mongoose model is an abstract `Store`: a function from the
  built find call to a document list plus a count function on predicates.
  `findWithOptions` records exactly which call it issues.
* `page = 0` (JS negative skip) and `limit = 0` (JS `Infinity` total pages) are
  outside the model; the pagination claims assume `page ≥ 1` and `limit ≥ 1`.
-/

namespace QueryToolkitModel

/-- A JS primitive value carried by `QueryOptions` (the `[key: string]: any`
index signature as exercised by the toolkit: strings, numbers, booleans). -/
inductive JsValue where
  | str (s : String)
  | num (n : Nat)
  | bool (b : Bool)
deriving DecidableEq, Repr

/-- A raw `QueryOptions` object: string-keyed record in insertion order. -/
abbrev RawOptions := List (String × JsValue)

/-- Property read `o[k]` (first matching key; JS objects have unique keys). -/
def lookupKey (o : List (String × α)) (k : String) : Option α :=
  match o with
  | [] => none
  | (k', v) :: rest => if k' = k then some v else lookupKey rest k

/-- Property assignment `o[k] = v`: overwrite in place if the key exists,
otherwise append at the end (JS object key-order semantics). -/
def objInsert : List (String × α) → String → α → List (String × α)
  | [], k, v => [(k, v)]
  | (k', v') :: rest, k, v =>
    if k' = k then (k, v) :: rest else (k', v') :: objInsert rest k v

/-- Read a string-valued option (well-typed per the `QueryOptions` interface). -/
def getStr (o : RawOptions) (k : String) : Option String :=
  match lookupKey o k with
  | some (JsValue.str s) => some s
  | _ => none

/-- Read a number-valued option (well-typed per the `QueryOptions` interface). -/
def getNum (o : RawOptions) (k : String) : Option Nat :=
  match lookupKey o k with
  | some (JsValue.num n) => some n
  | _ => none

/-! JS string methods, implemented structurally over character lists. -/

/-- Worker for `String.prototype.split(sep)` with a one-character separator. -/
def splitCharsAux (sep : Char) : List Char → List Char → List (List Char)
  | [], acc => [acc.reverse]
  | c :: rest, acc =>
    if c = sep then acc.reverse :: splitCharsAux sep rest []
    else splitCharsAux sep rest (c :: acc)

/-- JS `s.split(sep)` for a one-character separator (`','` in the source). -/
def jsSplit (s : String) (sep : Char) : List String :=
  (splitCharsAux sep s.data []).map String.mk

/-- JS `s.startsWith('-')`. -/
def startsWithDash (s : String) : Bool :=
  match s.data with
  | c :: _ => c = '-'
  | [] => false

/-- JS `s.substring(1)`. -/
def dropFirst (s : String) : String := String.mk s.data.tail

/-- JS `s.trim()`. -/
def jsTrim (s : String) : String :=
  String.mk (((s.data.dropWhile Char.isWhitespace).reverse.dropWhile
    Char.isWhitespace).reverse)

/-- JS `array.join(' ')`. -/
def jsJoinSpace : List String → String
  | [] => ""
  | [s] => s
  | s :: rest => s ++ " " ++ jsJoinSpace rest

/-- JS `s.replace(/,/g, ' ')`: every comma becomes a space. -/
def jsReplaceCommaSpace (s : String) : String :=
  String.mk (s.data.map fun c => if c = ',' then ' ' else c)

/-- The prefix-stripped field name of a `sort`/`select` token:
`field.startsWith('-') ? field.substring(1) : field`. -/
def fieldNameOf (t : String) : String :=
  if startsWithDash t then dropFirst t else t

/-! The `QueryToolkit` configuration and the query artifacts it builds. -/

/-- Construction-time whitelist configuration (`new QueryToolkit(model, options)`);
each list defaults to `[]` exactly as in the constructor. -/
structure QueryToolkit where
  searchFields : List String := []
  filterableFields : List String := []
  selectableFields : List String := []
  populatableFields : List String := []
deriving Repr

/-- One disjunct of the `$or` search clause:
`{ [field]: { $regex: q, $options: 'i' } }`. -/
structure SearchCond where
  field : String
  regex : String
  opts : String
deriving DecidableEq, Repr

/-- The predicate handed to `model.find` / `model.countDocuments`: the object
spread `{ ...buildSearchQuery(q || ''), ...buildFilterQuery(filterOptions) }`.
An empty `orConds` list models the empty object `{}` returned by
`buildSearchQuery` (no `$or` key, no always-true placeholder). -/
structure Predicate where
  orConds : List SearchCond
  filters : List (String × JsValue)
deriving DecidableEq, Repr

/-- `buildSearchQuery` (src/index.ts lines 44-52): empty term or empty
`searchFields` yields the empty object; otherwise one case-insensitive regex
condition per search field, in stored order. -/
def buildSearchQuery (searchFields : List String) (q : String) : List SearchCond :=
  if q = "" ∨ searchFields = [] then []
  else searchFields.map fun field => { field := field, regex := q, opts := "i" }

/-- `buildFilterQuery` (lines 54-64): iterate `filterableFields`; for each key
whose value in `options` is not `undefined`, emit `filterQuery[key] = options[key]`. -/
def buildFilterQuery (filterableFields : List String) (options : RawOptions) :
    List (String × JsValue) :=
  filterableFields.foldl
    (fun acc key =>
      match lookupKey options key with
      | some v => objInsert acc key v
      | none => acc)
    []

/-- Sort direction: `1` (ascending) or `-1` (descending) in the source. -/
inductive SortDir where
  | asc
  | desc
deriving DecidableEq, Repr

/-- Direction of one sort token: leading `-` means descending. -/
def sortTokenDir (t : String) : SortDir :=
  if startsWithDash t then SortDir.desc else SortDir.asc

/-- `parseSortString` (lines 66-78): `if (!sort) return {}`, else split on `,`
and assign `sortQuery[fieldName] = order` token by token. -/
def parseSortString : Option String → List (String × SortDir)
  | none => []
  | some s =>
    if s = "" then []
    else
      (jsSplit s ',').foldl
        (fun acc field => objInsert acc (fieldNameOf field) (sortTokenDir field)) []

/-- `buildSelectQuery` (lines 80-97): `null` for a falsy input; with an empty
whitelist, `select.replace(/,/g, ' ')`; otherwise keep only tokens whose
prefix-stripped name is whitelisted and join them with spaces. -/
def buildSelectQuery (selectableFields : List String) : Option String → Option String
  | none => none
  | some s =>
    if s = "" then none
    else if selectableFields = [] then some (jsReplaceCommaSpace s)
    else
      some (jsJoinSpace ((jsSplit s ',').filter fun field =>
        selectableFields.contains (fieldNameOf field)))

/-- `buildPopulateFields` (lines 99-112): `[]` for a falsy input; split on `,`
and trim each token; an empty whitelist passes everything through, otherwise
keep only whitelisted tokens in order. -/
def buildPopulateFields (populatableFields : List String) : Option String → List String
  | none => []
  | some s =>
    if s = "" then []
    else
      let fields := (jsSplit s ',').map jsTrim
      if populatableFields = [] then fields
      else fields.filter fun field => populatableFields.contains field

/-- The keys consumed by the destructuring
`const { q, page, limit, sort, select, populate, ...filterOptions } = options`
(line 115). -/
def reservedKeys : List String := ["q", "page", "limit", "sort", "select", "populate"]

/-- The rest object `filterOptions`: every reserved key removed. -/
def removeReserved (options : RawOptions) : RawOptions :=
  options.filter fun kv => !(reservedKeys.contains kv.fst)

/-- The combined predicate of lines 118-121, shared by the find and the count. -/
def buildQuery (tk : QueryToolkit) (options : RawOptions) : Predicate :=
  { orConds := buildSearchQuery tk.searchFields ((getStr options "q").getD "")
    filters := buildFilterQuery tk.filterableFields (removeReserved options) }

/-- The truthiness guard `if (selectQuery) findQuery.select(selectQuery)`
(line 133): `null` and the empty string both mean no projection. -/
def applySelect (selectQuery : Option String) : Option String :=
  match selectQuery with
  | some s => if s = "" then none else some s
  | none => none

/-- Everything `findWithOptions` sends to the store for the document fetch:
predicate, sort (only when nonempty), projection (only when truthy), one
populate call per field, then skip and limit. -/
structure FindCall where
  query : Predicate
  sortArg : Option (List (String × SortDir))
  selectArg : Option String
  populateArgs : List String
  skip : Nat
  limit : Nat
deriving DecidableEq, Repr

/-- The find call assembled by `findWithOptions` (lines 114-147). -/
def buildFindCall (tk : QueryToolkit) (options : RawOptions) : FindCall :=
  let page := (getNum options "page").getD 1
  let limit := (getNum options "limit").getD 10
  let sortQuery := parseSortString (getStr options "sort")
  { query := buildQuery tk options
    sortArg := if sortQuery = [] then none else some sortQuery
    selectArg := applySelect (buildSelectQuery tk.selectableFields (getStr options "select"))
    populateArgs := buildPopulateFields tk.populatableFields (getStr options "populate")
    skip := (page - 1) * limit
    limit := limit }

/-- The abstract document store (the Mongoose model): executes a find call and
counts documents matching a predicate. -/
structure Store (α : Type) where
  execFind : FindCall → List α
  countDocuments : Predicate → Nat

/-- The result envelope (lines 153-161). -/
structure PaginationResult (α : Type) where
  docs : List α
  totalDocs : Nat
  limit : Nat
  page : Nat
  totalPages : Nat
  hasNextPage : Bool
  hasPrevPage : Bool
deriving Repr

/-- `findWithOptions` (lines 114-162). `totalPages` is
`Math.ceil(totalDocs / limit)`, rendered as `(totalDocs + limit - 1) / limit`
for `limit ≥ 1`. -/
def findWithOptions (tk : QueryToolkit) (store : Store α) (options : RawOptions) :
    PaginationResult α :=
  let call := buildFindCall tk options
  let docs := store.execFind call
  let totalDocs := store.countDocuments call.query
  let page := (getNum options "page").getD 1
  let limit := (getNum options "limit").getD 10
  let totalPages := (totalDocs + limit - 1) / limit
  { docs := docs
    totalDocs := totalDocs
    limit := limit
    page := page
    totalPages := totalPages
    hasNextPage := decide (page < totalPages)
    hasPrevPage := decide (1 < page) }

/-- Modelled from the spec: `countWithOptions` is documented in the README and
exercised by the test suite but its body is missing from `src/index.ts`.
Per the spec it "builds only the predicate (search + filter); explicitly
ignores `page`, `limit`, `sort`, `select`, `expand` even if present in the
input; returns the raw count"; the predicate construction is the one shared
with `findWithOptions`. -/
def countWithOptions (tk : QueryToolkit) (store : Store α) (options : RawOptions) : Nat :=
  store.countDocuments (buildQuery tk options)

/-! The preset registry (spec-modelled: documented in the README and exercised
by the test suite, but missing from `src/index.ts`). -/

/-- Modelled from the spec: the preset registry, a mapping from preset name to
a stored `QueryOptions` bundle, in insertion order. -/
abbrev PresetRegistry := List (String × RawOptions)

/-- Modelled from the spec: the failure raised when a preset name is absent. -/
inductive PresetError where
  | presetNotFound (name : String) (available : List String)
deriving DecidableEq, Repr

/-- Join names with `", "` for the error message. -/
def sJoinComma : List String → String
  | [] => ""
  | [s] => s
  | s :: rest => s ++ ", " ++ sJoinComma rest

/-- Modelled from the spec: the `PresetNotFoundError` message "must include the
requested name and the full current list of names"; the test suite fixes the
shape `Preset "name" not found. Available presets: ...`. -/
def presetErrorMessage : PresetError → String
  | PresetError.presetNotFound name available =>
    "Preset \"" ++ name ++ "\" not found. Available presets: " ++ sJoinComma available

/-- Modelled from the spec: `list()` returns all preset names in registry order. -/
def listPresets (registry : PresetRegistry) : List String := registry.map Prod.fst

/-- Modelled from the spec: the shallow override merge of `resolve`
(object-spread semantics, overrides applied last, every overrides key wins). -/
def mergeOptions (stored overrides : RawOptions) : RawOptions :=
  overrides.foldl (fun acc kv => objInsert acc kv.fst kv.snd) stored

/-- Modelled from the spec: `resolve(name, overrides)` fails with
`PresetNotFoundError` when `name` is absent, else returns the merged bundle. -/
def resolvePreset (registry : PresetRegistry) (name : String) (overrides : RawOptions) :
    Except PresetError RawOptions :=
  match lookupKey registry name with
  | none => Except.error (PresetError.presetNotFound name (listPresets registry))
  | some stored => Except.ok (mergeOptions stored overrides)

/-- Modelled from the spec: `findWithPreset` resolves the preset, then
delegates to `findWithOptions`; resolution failure propagates. -/
def findWithPreset (tk : QueryToolkit) (store : Store α) (registry : PresetRegistry)
    (name : String) (overrides : RawOptions) : Except PresetError (PaginationResult α) :=
  (resolvePreset registry name overrides).map (findWithOptions tk store)

/-- Modelled from the spec: `countWithPreset` resolves the preset, then
delegates to `countWithOptions`; resolution failure propagates. -/
def countWithPreset (tk : QueryToolkit) (store : Store α) (registry : PresetRegistry)
    (name : String) (overrides : RawOptions) : Except PresetError Nat :=
  (resolvePreset registry name overrides).map (countWithOptions tk store)

/-- The keys `countWithOptions` is specified to ignore. -/
def countIgnoredKeys : List String := ["page", "limit", "sort", "select", "populate"]

/-- Spec-side reference for claim C5: distinct names in first-appearance order. -/
def firstAppearanceKeys (names : List String) : List String :=
  names.foldl (fun ks n => if n ∈ ks then ks else ks ++ [n]) []

/-- Spec-side reference for claim C5: the direction of the last sort token whose
prefix-stripped name is `f`, if any (last occurrence wins). -/
def lastTokenDir (tokens : List String) (f : String) : Option SortDir :=
  (tokens.reverse.find? fun t => fieldNameOf t == f).map sortTokenDir

/-- A store with a constant count and no documents, for concrete instantiation. -/
def constStore (n : Nat) : Store Nat :=
  { execFind := fun _ => [], countDocuments := fun _ => n }

end QueryToolkitModel

namespace QueryToolkitModel

/-! Helper lemmas about the association-list object model. -/

theorem lookupKey_objInsert_self (o : List (String × α)) (k : String) (v : α) :
    lookupKey (objInsert o k v) k = some v := by
  induction o with
  | nil => simp [objInsert, lookupKey]
  | cons kv rest ih =>
    obtain ⟨ka, va⟩ := kv
    by_cases h : ka = k
    · simp [objInsert, h, lookupKey]
    · simp [objInsert, h, lookupKey, ih]

theorem lookupKey_objInsert_ne (o : List (String × α)) (k k' : String) (v : α)
    (h : k' ≠ k) : lookupKey (objInsert o k v) k' = lookupKey o k' := by
  induction o with
  | nil => simp [objInsert, lookupKey, Ne.symm h]
  | cons kv rest ih =>
    obtain ⟨ka, va⟩ := kv
    by_cases hka : ka = k
    · subst hka
      simp [objInsert, lookupKey, Ne.symm h]
    · by_cases hk' : ka = k'
      · subst hk'
        simp [objInsert, hka, lookupKey]
      · simp [objInsert, hka, lookupKey, hk', ih]

theorem not_mem_of_lookupKey_eq_none (o : List (String × α)) (k : String)
    (h : lookupKey o k = none) (v : α) : (k, v) ∉ o := by
  induction o with
  | nil => simp
  | cons kv rest ih =>
    obtain ⟨ka, va⟩ := kv
    by_cases hka : ka = k
    · subst hka
      simp [lookupKey] at h
    · simp [lookupKey, hka] at h
      simp [ih h]
      intro hk
      exact absurd hk.symm hka

theorem lookupKey_removeReserved_of_mem (o : RawOptions) (k : String)
    (h : k ∈ reservedKeys) : lookupKey (removeReserved o) k = none := by
  induction o with
  | nil => rfl
  | cons kv rest ih =>
    obtain ⟨ka, va⟩ := kv
    by_cases hres : ka ∈ reservedKeys
    · simpa [removeReserved, List.filter_cons, hres] using ih
    · have hne : ka ≠ k := fun hh => hres (hh ▸ h)
      simpa [removeReserved, List.filter_cons, hres, lookupKey, hne] using ih

theorem lookupKey_removeReserved_of_not_mem (o : RawOptions) (k : String)
    (h : k ∉ reservedKeys) : lookupKey (removeReserved o) k = lookupKey o k := by
  induction o with
  | nil => rfl
  | cons kv rest ih =>
    obtain ⟨ka, va⟩ := kv
    by_cases hka : ka = k
    · subst hka
      simp [removeReserved, List.filter_cons, h, lookupKey]
    · by_cases hres : ka ∈ reservedKeys
      · simpa [removeReserved, List.filter_cons, hres, lookupKey, hka] using ih
      · simpa [removeReserved, List.filter_cons, hres, lookupKey, hka] using ih

theorem removeReserved_objInsert_of_mem (o : RawOptions) (k : String) (v : JsValue)
    (h : k ∈ reservedKeys) : removeReserved (objInsert o k v) = removeReserved o := by
  induction o with
  | nil => simp [objInsert, removeReserved, List.filter_cons, h]
  | cons kv rest ih =>
    obtain ⟨ka, va⟩ := kv
    by_cases hka : ka = k
    · subst hka
      simp [objInsert, removeReserved, List.filter_cons, h]
    · by_cases hres : ka ∈ reservedKeys
      · simpa [objInsert, hka, removeReserved, List.filter_cons, hres] using ih
      · simpa [objInsert, hka, removeReserved, List.filter_cons, hres] using ih

end QueryToolkitModel

namespace QueryToolkitModel

theorem lookupKey_filterFold (o : RawOptions) (filterable : List String)
    (acc : List (String × JsValue)) (k : String) :
    lookupKey (filterable.foldl
        (fun acc key =>
          match lookupKey o key with
          | some v => objInsert acc key v
          | none => acc) acc) k
      = if k ∈ filterable ∧ (lookupKey o k).isSome then lookupKey o k
        else lookupKey acc k := by
  induction filterable generalizing acc with
  | nil => simp
  | cons key rest ih =>
    rw [List.foldl_cons, ih]
    by_cases hmem : k ∈ rest ∧ (lookupKey o k).isSome
    · rw [if_pos hmem, if_pos ⟨List.mem_cons_of_mem _ hmem.1, hmem.2⟩]
    · rw [if_neg hmem]
      by_cases hk : k = key
      · subst hk
        cases hsome : lookupKey o k with
        | some v =>
          simp only [hsome, lookupKey_objInsert_self]
          rw [if_pos ⟨List.mem_cons_self _ _, by simp [hsome]⟩]
        | none =>
          simp only [hsome]
          rw [if_neg (by simp [hsome])]
      · have hrest : ¬(k ∈ rest ∧ (lookupKey o k).isSome) := hmem
        rw [if_neg (by
          intro hc
          exact hrest ⟨(List.mem_cons.mp hc.1).resolve_left hk, hc.2⟩)]
        cases hsome : lookupKey o key with
        | some v => rw [lookupKey_objInsert_ne _ _ _ _ hk]
        | none => rfl

theorem lookupKey_buildFilterQuery (filterable : List String) (o : RawOptions) (k : String) :
    lookupKey (buildFilterQuery filterable o) k
      = if k ∈ filterable then lookupKey o k else none := by
  unfold buildFilterQuery
  rw [lookupKey_filterFold]
  by_cases hmem : k ∈ filterable
  · cases hsome : lookupKey o k with
    | some v => simp [hmem, hsome, lookupKey]
    | none => simp [hmem, hsome, lookupKey]
  · simp [hmem, lookupKey]

theorem buildFilterQuery_congr (filterable : List String) (o1 o2 : RawOptions)
    (h : ∀ key ∈ filterable, lookupKey o1 key = lookupKey o2 key) :
    buildFilterQuery filterable o1 = buildFilterQuery filterable o2 := by
  unfold buildFilterQuery
  have haux : ∀ fl : List String, (∀ key ∈ fl, lookupKey o1 key = lookupKey o2 key) →
      ∀ acc : List (String × JsValue),
      fl.foldl (fun acc key =>
          match lookupKey o1 key with
          | some v => objInsert acc key v
          | none => acc) acc
        = fl.foldl (fun acc key =>
          match lookupKey o2 key with
          | some v => objInsert acc key v
          | none => acc) acc := by
    intro fl
    induction fl with
    | nil => intro _ acc; rfl
    | cons key rest ih =>
      intro hfl acc
      rw [List.foldl_cons, List.foldl_cons, hfl key (List.mem_cons_self _ _)]
      exact ih (fun key hk => hfl key (List.mem_cons_of_mem _ hk)) _
  exact haux filterable h []

end QueryToolkitModel

namespace QueryToolkitModel

theorem lookupKey_sortFold (tokens : List String) (acc : List (String × SortDir)) (k : String) :
    lookupKey (tokens.foldl
        (fun acc field => objInsert acc (fieldNameOf field) (sortTokenDir field)) acc) k
      = (lastTokenDir tokens k).or (lookupKey acc k) := by
  induction tokens generalizing acc with
  | nil => simp [lastTokenDir]
  | cons t ts ih =>
    rw [List.foldl_cons, ih]
    unfold lastTokenDir
    rw [List.reverse_cons, List.find?_append]
    cases hfind : ts.reverse.find? (fun t => fieldNameOf t == k) with
    | some t' => simp [hfind]
    | none =>
      simp only [hfind, Option.none_or, Option.map, List.find?]
      by_cases hk : fieldNameOf t = k
      · subst hk
        simp [lookupKey_objInsert_self]
      · have hbeq : (fieldNameOf t == k) = false := by
          simpa using hk
        simp only [hbeq]
        rw [lookupKey_objInsert_ne _ _ _ _ (Ne.symm hk)]
        simp

theorem map_fst_objInsert (o : List (String × α)) (k : String) (v : α) :
    (objInsert o k v).map Prod.fst
      = if k ∈ o.map Prod.fst then o.map Prod.fst else o.map Prod.fst ++ [k] := by
  induction o with
  | nil => simp [objInsert]
  | cons kv rest ih =>
    obtain ⟨ka, va⟩ := kv
    by_cases hka : ka = k
    · subst hka
      simp [objInsert]
    · have hne : k ≠ ka := Ne.symm hka
      by_cases hmem : k ∈ rest.map Prod.fst
      · simp [objInsert, hka, ih, hmem, hne]
      · simp [objInsert, hka, ih, hmem, hne]

theorem map_fst_sortFold (tokens : List String) (acc : List (String × SortDir)) :
    (tokens.foldl
        (fun acc field => objInsert acc (fieldNameOf field) (sortTokenDir field)) acc).map
        Prod.fst
      = tokens.foldl
          (fun ks field => if fieldNameOf field ∈ ks then ks else ks ++ [fieldNameOf field])
          (acc.map Prod.fst) := by
  induction tokens generalizing acc with
  | nil => rfl
  | cons t ts ih =>
    rw [List.foldl_cons, List.foldl_cons, ih, map_fst_objInsert]

theorem le_ceil_mul (td l : Nat) (hl : 1 ≤ l) : td ≤ ((td + l - 1) / l) * l := by
  have h1 := Nat.div_add_mod (td + l - 1) l
  have h2 := Nat.mod_lt (td + l - 1) (show 0 < l by omega)
  rw [Nat.mul_comm]
  omega

theorem ceil_minimal (td l m : Nat) (hl : 1 ≤ l) (h : td ≤ m * l) :
    (td + l - 1) / l ≤ m := by
  have hml : (m + 1) * l = m * l + l := by ring
  have h' : td + l - 1 < (m + 1) * l := by omega
  have hlt := (Nat.div_lt_iff_lt_mul (show 0 < l by omega)).mpr h'
  omega

end QueryToolkitModel

namespace QueryToolkitModel

theorem buildSearchQuery_eq_map (searchFields : List String) (q : String)
    (h1 : q ≠ "") (h2 : searchFields ≠ []) :
    buildSearchQuery searchFields q
      = searchFields.map fun field => { field := field, regex := q, opts := "i" } := by
  simp [buildSearchQuery, h1, h2]

/-- C4: the search clause is empty whenever the term or the searchable whitelist
is empty (no always-true placeholder), and otherwise is the OR of exactly one
case-insensitive regex condition per searchable field, in stored order. -/
theorem buildSearchQuery_spec (searchFields : List String) (q : String) :
    ((q = "" ∨ searchFields = []) → buildSearchQuery searchFields q = [])
    ∧ (q ≠ "" → searchFields ≠ [] →
        buildSearchQuery searchFields q
          = searchFields.map fun field => { field := field, regex := q, opts := "i" }) := by
  constructor
  · intro h
    simp [buildSearchQuery, h]
  · exact buildSearchQuery_eq_map searchFields q

theorem buildSearchQuery_spec_witness :
    (("" : String) = "" ∨ (["name"] : List String) = [])
    ∧ buildSearchQuery [] "john" = []
    ∧ buildSearchQuery ["name", "email"] "john"
        = ["name", "email"].map fun field => { field := field, regex := "john", opts := "i" } :=
  ⟨Or.inl rfl,
    (buildSearchQuery_spec [] "john").1 (Or.inr rfl),
    (buildSearchQuery_spec ["name", "email"] "john").2 (by decide) (by decide)⟩

/-- C9: the search term is embedded verbatim as the regex pattern of every
per-field condition (with options `i`), with no escaping applied. -/
theorem buildSearchQuery_verbatim (searchFields : List String) (q : String)
    (h1 : q ≠ "") (h2 : searchFields ≠ []) :
    (buildSearchQuery searchFields q).map SearchCond.regex = searchFields.map (fun _ => q)
    ∧ ∀ c ∈ buildSearchQuery searchFields q, c.regex = q ∧ c.opts = "i" := by
  rw [buildSearchQuery_eq_map searchFields q h1 h2]
  constructor
  · simp [Function.comp_def]
  · intro c hc
    simp only [List.mem_map] at hc
    obtain ⟨f, _, rfl⟩ := hc
    exact ⟨rfl, rfl⟩

theorem buildSearchQuery_verbatim_witness :
    ((".*(" : String) ≠ "") ∧ ((["name"] : List String) ≠ [])
    ∧ ((buildSearchQuery ["name"] ".*(").map SearchCond.regex = ["name"].map (fun _ => ".*(")
        ∧ ∀ c ∈ buildSearchQuery ["name"] ".*(", c.regex = ".*(" ∧ c.opts = "i") :=
  ⟨by decide, by decide, buildSearchQuery_verbatim ["name"] ".*(" (by decide) (by decide)⟩

/-- C8: the filter clause is determined by looking each whitelisted field up in
the options: a present field contributes its raw value as an exact-match
condition, and no key outside the whitelist ever contributes. -/
theorem buildFilterQuery_spec (filterableFields : List String) (options : RawOptions)
    (k : String) (v : JsValue) :
    (lookupKey (buildFilterQuery filterableFields options) k
        = if k ∈ filterableFields then lookupKey options k else none)
    ∧ (k ∉ filterableFields → (k, v) ∉ buildFilterQuery filterableFields options)
    ∧ buildFilterQuery ["status", "role"]
        [("role", JsValue.str "admin"), ("extra", JsValue.num 3)]
        = [("role", JsValue.str "admin")] := by
  refine ⟨lookupKey_buildFilterQuery _ _ _, ?_, by decide⟩
  intro hk
  exact not_mem_of_lookupKey_eq_none _ _
    (by rw [lookupKey_buildFilterQuery, if_neg hk]) v

theorem buildFilterQuery_spec_witness :
    ("extra" ∉ (["status", "role"] : List String))
    ∧ ("extra", JsValue.num 3) ∉ buildFilterQuery ["status", "role"]
        [("role", JsValue.str "admin"), ("extra", JsValue.num 3)] :=
  ⟨by decide,
    (buildFilterQuery_spec ["status", "role"]
      [("role", JsValue.str "admin"), ("extra", JsValue.num 3)] "extra"
      (JsValue.num 3)).2.1 (by decide)⟩

/-- C10: the destructuring removes the reserved keys `q`, `page`, `limit`,
`sort`, `select`, `populate` before the filter clause is built, so none of them
ever appears as an exact-match condition in the find predicate, even when
listed in the filterable whitelist. -/
theorem reservedKeys_removed_before_filter (tk : QueryToolkit) (options : RawOptions)
    (k : String) (v : JsValue) (hk : k ∈ reservedKeys) :
    lookupKey (buildFindCall tk options).query.filters k = none
    ∧ (k, v) ∉ (buildFindCall tk options).query.filters := by
  have h2 : lookupKey (buildFilterQuery tk.filterableFields (removeReserved options)) k
      = none := by
    rw [lookupKey_buildFilterQuery]
    by_cases hmem : k ∈ tk.filterableFields
    · rw [if_pos hmem, lookupKey_removeReserved_of_mem _ _ hk]
    · rw [if_neg hmem]
  exact ⟨h2, not_mem_of_lookupKey_eq_none _ _ h2 v⟩

theorem reservedKeys_removed_before_filter_witness :
    ("page" ∈ reservedKeys)
    ∧ (lookupKey (buildFindCall { filterableFields := ["page"] }
          [("page", JsValue.num 2)]).query.filters "page" = none
      ∧ ("page", JsValue.num 2) ∉ (buildFindCall { filterableFields := ["page"] }
          [("page", JsValue.num 2)]).query.filters) :=
  ⟨by decide,
    reservedKeys_removed_before_filter { filterableFields := ["page"] }
      [("page", JsValue.num 2)] "page" (JsValue.num 2) (by decide)⟩

/-- C5: `parseSortString` yields the empty spec on empty or absent input;
otherwise it splits on commas, its keys are the prefix-stripped token names in
first-appearance order, its value at each field is the direction of the last
token naming that field (leading `-` descending, otherwise ascending), and in
particular `"-a,b"` parses to `a ↦ desc, b ↦ asc` in that order while `"a,-a"`
parses to `a ↦ desc`. -/
theorem parseSortString_spec (s f : String) (hs : s ≠ "") :
    parseSortString none = []
    ∧ parseSortString (some "") = []
    ∧ (parseSortString (some s)).map Prod.fst
        = firstAppearanceKeys ((jsSplit s ',').map fieldNameOf)
    ∧ lookupKey (parseSortString (some s)) f = lastTokenDir (jsSplit s ',') f
    ∧ parseSortString (some "-a,b") = [("a", SortDir.desc), ("b", SortDir.asc)]
    ∧ parseSortString (some "a,-a") = [("a", SortDir.desc)] := by
  refine ⟨rfl, by decide, ?_, ?_, by decide, by decide⟩
  · simp only [parseSortString]
    rw [if_neg hs, map_fst_sortFold]
    unfold firstAppearanceKeys
    rw [List.foldl_map]
    rfl
  · simp only [parseSortString]
    rw [if_neg hs, lookupKey_sortFold]
    simp [lookupKey]

theorem parseSortString_spec_witness :
    (("-a,b" : String) ≠ "")
    ∧ (parseSortString (some "-a,b")).map Prod.fst
        = firstAppearanceKeys ((jsSplit "-a,b" ',').map fieldNameOf)
    ∧ lookupKey (parseSortString (some "-a,b")) "a" = lastTokenDir (jsSplit "-a,b" ',') "a" :=
  ⟨by decide,
    (parseSortString_spec "-a,b" "a" (by decide)).2.2.1,
    (parseSortString_spec "-a,b" "a" (by decide)).2.2.2.1⟩

end QueryToolkitModel

namespace QueryToolkitModel

theorem splitCharsAux_replace (l acc : List Char) (h : ' ' ∉ l) :
    splitCharsAux ' ' (l.map fun c => if c = ',' then ' ' else c) acc
      = splitCharsAux ',' l acc := by
  induction l generalizing acc with
  | nil => rfl
  | cons c cs ih =>
    have hc : c ≠ ' ' := fun hh => h (hh ▸ List.mem_cons_self _ _)
    have hcs : ' ' ∉ cs := fun hh => h (List.mem_cons_of_mem _ hh)
    by_cases hcomma : c = ','
    · subst hcomma
      simp [splitCharsAux, ih _ hcs]
    · simp [splitCharsAux, hcomma, hc, ih _ hcs]

theorem jsSplit_replace (s : String) (h : ' ' ∉ s.data) :
    jsSplit (jsReplaceCommaSpace s) ' ' = jsSplit s ',' := by
  unfold jsSplit jsReplaceCommaSpace
  rw [show (String.mk (s.data.map fun c => if c = ',' then ' ' else c)).data
      = s.data.map fun c => if c = ',' then ' ' else c from rfl]
  rw [splitCharsAux_replace _ _ h]

/-- C6: an empty or absent select yields no projection; an empty whitelist
passes the input through verbatim with commas turned into spaces (token for
token, exclusion prefixes included); a non-empty whitelist keeps exactly the
tokens whose prefix-stripped name is whitelisted, and when every token is
dropped the applied projection is none rather than a crash; in particular
`selectable = [name, status]` with `select = name,email,status` keeps
`name status`. -/
theorem buildSelectQuery_spec (selectableFields : List String) (s : String) :
    applySelect (buildSelectQuery selectableFields none) = none
    ∧ applySelect (buildSelectQuery selectableFields (some "")) = none
    ∧ (s ≠ "" → buildSelectQuery [] (some s) = some (jsReplaceCommaSpace s))
    ∧ (' ' ∉ s.data → jsSplit (jsReplaceCommaSpace s) ' ' = jsSplit s ',')
    ∧ (s ≠ "" → selectableFields ≠ [] →
        buildSelectQuery selectableFields (some s)
          = some (jsJoinSpace ((jsSplit s ',').filter fun field =>
              selectableFields.contains (fieldNameOf field))))
    ∧ (s ≠ "" → selectableFields ≠ [] →
        (∀ field ∈ jsSplit s ',', fieldNameOf field ∉ selectableFields) →
        applySelect (buildSelectQuery selectableFields (some s)) = none)
    ∧ buildSelectQuery ["name", "status"] (some "name,email,status") = some "name status" := by
  have hsel : ∀ (_ : s ≠ "") (_ : selectableFields ≠ []),
      buildSelectQuery selectableFields (some s)
        = some (jsJoinSpace ((jsSplit s ',').filter fun field =>
            selectableFields.contains (fieldNameOf field))) := by
    intro hs hne
    simp only [buildSelectQuery]
    rw [if_neg hs, if_neg hne]
  refine ⟨rfl, rfl, ?_, jsSplit_replace s, hsel, ?_, by decide⟩
  · intro hs
    simp [buildSelectQuery, hs]
  · intro hs hne hall
    rw [hsel hs hne]
    have hfil : (jsSplit s ',').filter (fun field =>
        selectableFields.contains (fieldNameOf field)) = [] := by
      rw [List.filter_eq_nil_iff]
      intro a ha
      simp [hall a ha]
    rw [hfil]
    rfl

theorem buildSelectQuery_spec_witness :
    (("name" : String) ≠ "") ∧ ((["x"] : List String) ≠ [])
    ∧ (∀ field ∈ jsSplit "name" ',', fieldNameOf field ∉ (["x"] : List String))
    ∧ applySelect (buildSelectQuery ["x"] (some "name")) = none :=
  ⟨by decide, by decide, by decide,
    (buildSelectQuery_spec ["x"] "name").2.2.2.2.2.1 (by decide) (by decide) (by decide)⟩

/-- C7: an empty or absent populate yields an empty expansion list; tokens are
trimmed; an empty whitelist passes every trimmed token through in order, a
non-empty whitelist keeps only whitelisted tokens in input order; in particular
an unrestricted toolkit expands `profile, posts` to `[profile, posts]`. -/
theorem buildPopulateFields_spec (populatableFields : List String) (s : String) :
    buildPopulateFields populatableFields none = []
    ∧ buildPopulateFields populatableFields (some "") = []
    ∧ (s ≠ "" → buildPopulateFields [] (some s) = (jsSplit s ',').map jsTrim)
    ∧ (s ≠ "" → populatableFields ≠ [] →
        buildPopulateFields populatableFields (some s)
          = ((jsSplit s ',').map jsTrim).filter fun field => populatableFields.contains field)
    ∧ buildPopulateFields [] (some "profile, posts") = ["profile", "posts"] := by
  refine ⟨rfl, rfl, ?_, ?_, by decide⟩
  · intro hs
    simp [buildPopulateFields, hs]
  · intro hs hp
    simp only [buildPopulateFields]
    rw [if_neg hs]
    show (if populatableFields = [] then (jsSplit s ',').map jsTrim
        else ((jsSplit s ',').map jsTrim).filter fun field =>
          populatableFields.contains field) = _
    rw [if_neg hp]

theorem buildPopulateFields_spec_witness :
    (("profile, posts" : String) ≠ "") ∧ ((["profile"] : List String) ≠ [])
    ∧ buildPopulateFields ["profile"] (some "profile, posts")
        = ((jsSplit "profile, posts" ',').map jsTrim).filter fun field =>
            (["profile"] : List String).contains field :=
  ⟨by decide, by decide,
    (buildPopulateFields_spec ["profile"] "profile, posts").2.2.2.1 (by decide) (by decide)⟩

end QueryToolkitModel

namespace QueryToolkitModel

/-- C3: with `page` and `limit` read from the options (defaulting to 1 and 10)
and both at least 1, `findWithOptions` skips `(page - 1) * limit` documents (a
quantity monotone in the page), limits to `limit`, and returns an envelope
whose `totalPages` is the ceiling of `totalDocs / limit` (least `n` with
`totalDocs ≤ n * limit`), with `hasNextPage = (page < totalPages)`,
`hasPrevPage = (page > 1)`, and in particular `page = totalPages` forces
`hasNextPage = false`. -/
theorem findWithOptions_pagination_spec (tk : QueryToolkit) (store : Store Nat)
    (options : RawOptions) (page limit : Nat)
    (hpage : (getNum options "page").getD 1 = page)
    (hlimit : (getNum options "limit").getD 10 = limit)
    (hp : 1 ≤ page) (hl : 1 ≤ limit) :
    (buildFindCall tk options).skip = (page - 1) * limit
    ∧ (buildFindCall tk options).limit = limit
    ∧ (∀ options2 page2, (getNum options2 "page").getD 1 = page2 →
        (getNum options2 "limit").getD 10 = limit → page ≤ page2 →
        (buildFindCall tk options).skip ≤ (buildFindCall tk options2).skip)
    ∧ (findWithOptions tk store options).page = page
    ∧ (findWithOptions tk store options).limit = limit
    ∧ (findWithOptions tk store options).totalDocs
        ≤ (findWithOptions tk store options).totalPages * limit
    ∧ (∀ m, (findWithOptions tk store options).totalDocs ≤ m * limit →
        (findWithOptions tk store options).totalPages ≤ m)
    ∧ (findWithOptions tk store options).hasNextPage
        = decide (page < (findWithOptions tk store options).totalPages)
    ∧ (findWithOptions tk store options).hasPrevPage = decide (page > 1)
    ∧ (page = (findWithOptions tk store options).totalPages →
        (findWithOptions tk store options).hasNextPage = false) := by
  have hskip : (buildFindCall tk options).skip
      = ((getNum options "page").getD 1 - 1) * ((getNum options "limit").getD 10) := rfl
  have hlim : (buildFindCall tk options).limit = (getNum options "limit").getD 10 := rfl
  have hpage' : (findWithOptions tk store options).page
      = (getNum options "page").getD 1 := rfl
  have hlimit' : (findWithOptions tk store options).limit
      = (getNum options "limit").getD 10 := rfl
  have htd : (findWithOptions tk store options).totalDocs
      = store.countDocuments (buildFindCall tk options).query := rfl
  have htp : (findWithOptions tk store options).totalPages
      = (store.countDocuments (buildFindCall tk options).query
          + (getNum options "limit").getD 10 - 1) / (getNum options "limit").getD 10 := rfl
  have hnext : (findWithOptions tk store options).hasNextPage
      = decide ((getNum options "page").getD 1
          < (findWithOptions tk store options).totalPages) := rfl
  have hprev : (findWithOptions tk store options).hasPrevPage
      = decide (1 < (getNum options "page").getD 1) := rfl
  refine ⟨?_, ?_, ?_, ?_, ?_, ?_, ?_, ?_, ?_, ?_⟩
  · rw [hskip, hpage, hlimit]
  · rw [hlim, hlimit]
  · intro options2 page2 h1 h2 hle
    have hskip2 : (buildFindCall tk options2).skip
        = ((getNum options2 "page").getD 1 - 1) * ((getNum options2 "limit").getD 10) := rfl
    rw [hskip, hpage, hlimit, hskip2, h1, h2]
    exact Nat.mul_le_mul_right limit (Nat.sub_le_sub_right hle 1)
  · rw [hpage', hpage]
  · rw [hlimit', hlimit]
  · rw [htd, htp, hlimit]
    exact le_ceil_mul _ limit hl
  · intro m hm
    rw [htd] at hm
    rw [htp, hlimit]
    exact ceil_minimal _ limit m hl hm
  · rw [hnext, hpage]
  · rw [hprev, hpage]
  · intro heq
    rw [hnext, hpage, ← heq]
    simp

theorem findWithOptions_pagination_spec_witness :
    ((getNum [("page", JsValue.num 2), ("limit", JsValue.num 5)] "page").getD 1 = 2)
    ∧ ((getNum [("page", JsValue.num 2), ("limit", JsValue.num 5)] "limit").getD 10 = 5)
    ∧ 1 ≤ 2 ∧ 1 ≤ 5
    ∧ (buildFindCall {} [("page", JsValue.num 2), ("limit", JsValue.num 5)]).skip
        = (2 - 1) * 5 :=
  ⟨by decide, by decide, by decide, by decide,
    (findWithOptions_pagination_spec {} (constStore 15)
      [("page", JsValue.num 2), ("limit", JsValue.num 5)] 2 5 (by decide) (by decide)
      (by decide) (by decide)).1⟩

/-- C1: `countWithOptions` invokes the store count with the search-plus-filter
predicate alone and returns that raw count; inserting any of `page`, `limit`,
`sort`, `select`, `populate` — or any other key outside the filterable
whitelist and different from `q` (such as `expand`) — leaves that predicate
unchanged; in particular the options
`{status: active, page: 2, limit: 50, sort: -createdAt, select: a,b, expand: r}`
with `status` filterable produce the predicate `{status: active}` only. -/
theorem countWithOptions_spec (tk : QueryToolkit) (store : Store Nat) (options : RawOptions) :
    countWithOptions tk store options = store.countDocuments (buildQuery tk options)
    ∧ (∀ k v, (k ∈ countIgnoredKeys ∨ (k ∉ tk.filterableFields ∧ k ≠ "q")) →
        buildQuery tk (objInsert options k v) = buildQuery tk options)
    ∧ buildQuery { searchFields := ["name"], filterableFields := ["status"] }
        [("status", JsValue.str "active"), ("page", JsValue.num 2), ("limit", JsValue.num 50),
         ("sort", JsValue.str "-createdAt"), ("select", JsValue.str "a,b"),
         ("expand", JsValue.str "r")]
        = { orConds := [], filters := [("status", JsValue.str "active")] } := by
  refine ⟨rfl, ?_, by decide⟩
  intro k v hk
  have hq : k ≠ "q" := by
    rcases hk with hk | hk
    · fin_cases hk <;> decide
    · exact hk.2
  have hgq : getStr (objInsert options k v) "q" = getStr options "q" := by
    unfold getStr
    rw [lookupKey_objInsert_ne _ _ _ _ (Ne.symm hq)]
  have hfil : buildFilterQuery tk.filterableFields (removeReserved (objInsert options k v))
      = buildFilterQuery tk.filterableFields (removeReserved options) := by
    rcases hk with hk | hk
    · have hres : k ∈ reservedKeys := by fin_cases hk <;> decide
      rw [removeReserved_objInsert_of_mem _ _ _ hres]
    · apply buildFilterQuery_congr
      intro key hkey
      have hkne : key ≠ k := fun hh => hk.1 (hh ▸ hkey)
      by_cases hkres : key ∈ reservedKeys
      · rw [lookupKey_removeReserved_of_mem _ _ hkres, lookupKey_removeReserved_of_mem _ _ hkres]
      · rw [lookupKey_removeReserved_of_not_mem _ _ hkres,
          lookupKey_removeReserved_of_not_mem _ _ hkres,
          lookupKey_objInsert_ne _ _ _ _ hkne]
  unfold buildQuery
  rw [hgq, hfil]

theorem countWithOptions_spec_witness :
    ("expand" ∈ countIgnoredKeys
      ∨ ("expand" ∉ ({ filterableFields := ["status"] } : QueryToolkit).filterableFields
          ∧ ("expand" : String) ≠ "q"))
    ∧ buildQuery { filterableFields := ["status"] }
        (objInsert [("status", JsValue.str "active")] "expand" (JsValue.str "r"))
      = buildQuery { filterableFields := ["status"] } [("status", JsValue.str "active")] :=
  ⟨Or.inr (by decide),
    ((countWithOptions_spec { filterableFields := ["status"] } (constStore 0)
      [("status", JsValue.str "active")]).2.1 "expand" (JsValue.str "r")
      (Or.inr (by decide)))⟩

/-- C2: for a preset name that is not registered, `findWithPreset` and
`countWithPreset` both return (for every store, hence before and independent of
any store call) the `PresetNotFound` error carrying the requested name and the
full current list of registered preset names, and the rendered message embeds
the requested name and the comma-joined name list. -/
theorem presetNotFound_spec (tk : QueryToolkit) (store : Store Nat)
    (registry : PresetRegistry) (name : String) (overrides : RawOptions)
    (h : lookupKey registry name = none) :
    findWithPreset tk store registry name overrides
        = Except.error (PresetError.presetNotFound name (listPresets registry))
    ∧ countWithPreset tk store registry name overrides
        = Except.error (PresetError.presetNotFound name (listPresets registry))
    ∧ (∃ pre post : String,
        presetErrorMessage (PresetError.presetNotFound name (listPresets registry))
          = pre ++ name ++ post)
    ∧ presetErrorMessage (PresetError.presetNotFound name (listPresets registry))
        = "Preset \"" ++ name ++ "\" not found. Available presets: "
            ++ sJoinComma (listPresets registry) := by
  have hres : resolvePreset registry name overrides
      = Except.error (PresetError.presetNotFound name (listPresets registry)) := by
    unfold resolvePreset
    rw [h]
  refine ⟨?_, ?_, ?_, rfl⟩
  · unfold findWithPreset
    rw [hres]
    rfl
  · unfold countWithPreset
    rw [hres]
    rfl
  · exact ⟨"Preset \"",
      "\" not found. Available presets: " ++ sJoinComma (listPresets registry), by
      unfold presetErrorMessage
      simp [String.append_assoc]⟩

theorem presetNotFound_spec_witness :
    (lookupKey ([("preset1", []), ("preset2", [])] : PresetRegistry) "missing" = none)
    ∧ findWithPreset {} (constStore 0) [("preset1", []), ("preset2", [])] "missing" []
        = Except.error (PresetError.presetNotFound "missing"
            (listPresets [("preset1", []), ("preset2", [])])) :=
  ⟨by decide,
    (presetNotFound_spec {} (constStore 0) [("preset1", []), ("preset2", [])]
      "missing" [] (by decide)).1⟩

end QueryToolkitModel
